import Mathlib

/-! Verification of the casing-simulation grid builder, source assembler
and casing-current extractor (CasingSimulations.py) against its
specification.

The Python code is shallowly embedded over exact rational arithmetic:
numpy float arrays become lists of rationals, numpy ceil/floor become
Int.ceil/Int.floor, and the SimPEG mesh conventions used by the code
(Utils.meshTensor, the cylindrically symmetric CylMesh face grids and
face areas) are spelled out explicitly as list constructions.
-/

namespace CasingSim

/-- Running cumulative sums of a list, starting from an offset:
models numpy cumsum applied after an origin shift. -/
def cumsumFrom (s : ℚ) : List ℚ → List ℚ
  | [] => []
  | a :: t => (s + a) :: cumsumFrom (s + a) t

/-- Cumulative sums of a list of cell widths: the node positions
strictly after the origin (vectorNx without its leading 0). -/
def cumsum (l : List ℚ) : List ℚ := cumsumFrom 0 l

/-- Cell-center positions of a width list starting at an offset. -/
def centersFrom (s : ℚ) : List ℚ → List ℚ
  | [] => []
  | a :: t => (s + a / 2) :: centersFrom (s + a) t

/-- Cell-center positions of a width list (cumsum minus half a width). -/
def centers (l : List ℚ) : List ℚ := centersFrom 0 l

/-- Minimum entry of a list (numpy ndarray.min on a nonempty array;
0 on the empty list, which never occurs in the modelled meshes). -/
def listMin : List ℚ → ℚ
  | [] => 0
  | a :: t => t.foldl min a

/-- SimPEG Utils.meshTensor uniform block: n cells of width cs. -/
def meshTensorUnif (cs : ℚ) (n : ℕ) : List ℚ := List.replicate n cs

/-- SimPEG Utils.meshTensor padding block with positive factor f:
widths cs * f, cs * f^2, ..., cs * f^n (growing away from the core). -/
def meshTensorPadUp (cs f : ℚ) (n : ℕ) : List ℚ :=
  (List.range n).map (fun i => cs * f ^ (i + 1))

/-- SimPEG Utils.meshTensor padding block with negative factor (-f):
the same widths in reverse order (growing toward smaller indices). -/
def meshTensorPadDown (cs f : ℚ) (n : ℕ) : List ℚ :=
  (meshTensorPadUp cs f n).reverse

/-- Exact-arithmetic model of floor(log(r) / log(b)) for b > 1, r >= 1
as used for npadx1: the greatest n with b ^ n <= r.  The search bound
(r - 1) / (b - 1) + 1 dominates any such n by the Bernoulli inequality. -/
def floorLogQ (b r : ℚ) : ℕ :=
  Nat.findGreatest (fun n => b ^ n ≤ r) (((r - 1) / (b - 1)).ceil.toNat + 1)

/-- The CasingProperties parameter record (simulation parameters):
conductivities, permeability sweep, casing geometry, layer bounds,
source frequencies and electrode locations.  Defaults as in the source. -/
structure CasingProperties where
  sigmaair : ℚ := 1 / 100000000
  sigmaback : ℚ := 1 / 100
  sigmalayer : ℚ := 1 / 100
  sigmacasing : ℚ := 5500000
  sigmainside : ℚ := 1
  muModels : List ℚ := [1, 50, 100, 200]
  casing_top : ℚ := 0
  casing_l : ℚ := 1000
  casing_d : ℚ := 1 / 10
  casing_t : ℚ := 1 / 100
  layer_z : ℚ × ℚ := (-1000, -900)
  freqs : List ℚ := [1 / 10000, 1 / 1000, 1 / 100, 1 / 10, 1 / 2, 1]
  dsz : ℚ := -950
  src_b_x : ℚ := 10000
  src_b_z : ℚ := 0

/-- Derived: casing radius, casing_d / 2. -/
def CasingProperties.casing_r (cp : CasingProperties) : ℚ := cp.casing_d / 2

/-- Derived: casing inner radius. -/
def CasingProperties.casing_a (cp : CasingProperties) : ℚ :=
  cp.casing_r - cp.casing_t / 2

/-- Derived: casing outer radius. -/
def CasingProperties.casing_b (cp : CasingProperties) : ℚ :=
  cp.casing_r + cp.casing_t / 2

/-- Derived: casing depth interval, np.r_[-casing_l, 0.] + casing_top. -/
def CasingProperties.casing_z (cp : CasingProperties) : ℚ × ℚ :=
  (-cp.casing_l + cp.casing_top, cp.casing_top)

/-- Derived: z-component of the downhole source electrode src_a. -/
def CasingProperties.src_a_z (cp : CasingProperties) : ℚ := cp.dsz

/-- The CasingMesh record: grid-construction parameters plus the
CasingProperties instance it is built around.  Defaults as in the source. -/
structure CasingMesh where
  cp : CasingProperties := {}
  csx1 : ℚ := 1 / 400
  csx2 : ℚ := 25
  pfx1 : ℚ := 13 / 10
  pfx2 : ℚ := 3 / 2
  dx2 : ℚ := 1000
  npadx2 : ℕ := 23
  csz : ℚ := 1 / 20
  nza : ℕ := 10
  pfz : ℚ := 3 / 2
  npadzu : ℕ := 38
  npadzd : ℕ := 38

namespace CasingMesh

/-- Number of cells with size csx1: ceil(casing_b / csx1 + 2). -/
def ncx1 (m : CasingMesh) : ℤ := ⌈m.cp.casing_b / m.csx1 + 2⌉

/-- Number of padding cells from csx1 to csx2:
floor(log(csx2 / csx1) / log(pfx1)), in exact arithmetic. -/
def npadx1 (m : CasingMesh) : ℕ := floorLogQ m.pfx1 (m.csx2 / m.csx1)

/-- Radial region 1: the finest uniform cells. -/
def hx1a (m : CasingMesh) : List ℚ := meshTensorUnif m.csx1 (ncx1 m).toNat

/-- Radial region 2 before rescaling: geometric padding from csx1. -/
def hx1bRaw (m : CasingMesh) : List ℚ := meshTensorPadUp m.csx1 m.pfx1 (npadx1 m)

/-- The count dx1 after the reassignment dx1 = floor(dx1 / csx2):
the pre-rescaling extent of regions 1-2 in units of csx2, rounded down. -/
def dx1 (m : CasingMesh) : ℤ := ⌊((hx1a m).sum + (hx1bRaw m).sum) / m.csx2⌋

/-- Radial region 2 after the uniform rescaling
hx1b *= (dx1 * csx2 - sum(hx1a)) / sum(hx1b). -/
def hx1b (m : CasingMesh) : List ℚ :=
  (hx1bRaw m).map
    (fun w => w * ((dx1 m * m.csx2 - (hx1a m).sum) / (hx1bRaw m).sum))

/-- Number of cells in the second uniform region:
ceil((dx2 - dx1) / csx2), where dx1 is the rounded count (as in the code). -/
def ncx2 (m : CasingMesh) : ℤ := ⌈(m.dx2 - dx1 m) / m.csx2⌉

/-- Radial region 3: the coarse uniform cells. -/
def hx2a (m : CasingMesh) : List ℚ := meshTensorUnif m.csx2 (ncx2 m).toNat

/-- Radial region 4: padding to infinity. -/
def hx2b (m : CasingMesh) : List ℚ := meshTensorPadUp m.csx2 m.pfx2 m.npadx2

/-- Cell spacings in the x-direction: the four regions concatenated. -/
def hx (m : CasingMesh) : List ℚ := hx1a m ++ hx1b m ++ hx2a m ++ hx2b m

/-- Number of core z-cells: ceil(-casing_z[0] / csz) + 10. -/
def ncz (m : CasingMesh) : ℤ := ⌈-(m.cp.casing_z.1) / m.csz⌉ + 10

/-- Cell spacings in the z-direction: down padding, core, up padding. -/
def hz (m : CasingMesh) : List ℚ :=
  meshTensorPadDown m.csz m.pfz m.npadzd
    ++ meshTensorUnif m.csz (ncz m).toNat
    ++ meshTensorPadUp m.csz m.pfz m.npadzu

/-- Vertical origin: -sum(hz[: npadzu + ncz - nza]), placing the
air-earth interface nza fine cells below the core top. -/
def z0 (m : CasingMesh) : ℚ :=
  -(((hz m).take (m.npadzu + (ncz m).toNat - m.nza)).sum)

/-- Radial positions of the x-faces of the symmetric CylMesh:
vectorNx[1:], i.e. the nonzero radial node positions. -/
def nodesX (m : CasingMesh) : List ℚ := cumsum (hx m)

/-- Radial cell-center positions (vectorCCx). -/
def ccX (m : CasingMesh) : List ℚ := centers (hx m)

/-- Vertical node positions (vectorNz), shifted by the origin z0. -/
def nodesZ (m : CasingMesh) : List ℚ :=
  z0 m :: (cumsum (hz m)).map (fun t => z0 m + t)

/-- Vertical cell-center positions (vectorCCz), shifted by z0. -/
def ccZ (m : CasingMesh) : List ℚ :=
  (centers (hz m)).map (fun t => z0 m + t)

/-- The (radial, vertical) coordinates of the x-faces, in SimPEG
Fortran order (radial index fastest): ndgrid(vectorNx[1:], vectorCCz). -/
def gridFx (m : CasingMesh) : List (ℚ × ℚ) :=
  (ccZ m).flatMap (fun z => (nodesX m).map (fun r => (r, z)))

/-- The (radial, vertical) coordinates of the z-faces, in SimPEG
Fortran order: ndgrid(vectorCCx, vectorNz). -/
def gridFz (m : CasingMesh) : List (ℚ × ℚ) :=
  (nodesZ m).flatMap (fun z => (ccX m).map (fun r => (r, z)))

/-- Minimum radial cell width, mesh.hx.min(). -/
def hxMin (m : CasingMesh) : ℚ := listMin (hx m)

/-- Minimum vertical cell width, mesh.hz.min(). -/
def hzMin (m : CasingMesh) : ℚ := listMin (hz m)

end CasingMesh

open CasingMesh

/-! ### Source assembler (DownHoleCasingSrc)

The selections and assembled values of the downhole grounded source.
The source object is constructed with src_a = cp.src_a, src_b = cp.src_b
and casing_a = cp.casing_a, so the selections are stated directly over a
CasingMesh (which carries its CasingProperties). -/

/-- Vertically directed wire in the borehole: z-faces on the axis
(radial coordinate below the smallest radial cell width) with vertical
coordinate between the downhole source depth and src_b[2] plus two
minimum vertical cell widths. -/
def dgv_ind (m : CasingMesh) (f : ℚ × ℚ) : Bool :=
  decide (f.1 < hxMin m) &&
    (decide (m.cp.src_a_z ≤ f.2) && decide (f.2 ≤ m.cp.src_b_z + 2 * hzMin m))

/-- Downhole coupling to the casing: x-faces with radial coordinate at
or inside the casing inner radius, and vertical coordinate at most the
source depth and strictly within one minimum vertical cell width of it. -/
def dgh_ind2 (m : CasingMesh) (f : ℚ × ℚ) : Bool :=
  decide (f.1 ≤ m.cp.casing_a) &&
    (decide (f.2 ≤ m.cp.src_a_z) && decide (m.cp.src_a_z - hzMin m < f.2))

/-- Horizontally directed wire along the surface: x-faces with radial
coordinate at most src_b[0] and vertical coordinate strictly between one
and two minimum vertical cell widths. -/
def sgh_ind (m : CasingMesh) (f : ℚ × ℚ) : Bool :=
  decide (f.1 ≤ m.cp.src_b_x) &&
    (decide (hzMin m < f.2) && decide (f.2 < 2 * hzMin m))

/-- Return electrode: z-faces with radial coordinate within 10 percent
of src_b[0] and vertical coordinate in [-hz.min(), 2 * hz.min()). -/
def sgv_ind (m : CasingMesh) (f : ℚ × ℚ) : Bool :=
  (decide (m.cp.src_b_x * (9 / 10) < f.1) && decide (f.1 < m.cp.src_b_x * (11 / 10))) &&
    (decide (-(hzMin m) ≤ f.2) && decide (f.2 < 2 * hzMin m))

/-- Value assigned by dg_p to an x-face: dg_x[dgh_ind2] = 1 is written
first and dg_x[sgh_ind] = -1 second, so on any overlap -1 wins. -/
def dgxVal (m : CasingMesh) (f : ℚ × ℚ) : ℚ :=
  if sgh_ind m f then -1 else if dgh_ind2 m f then 1 else 0

/-- Value assigned by dg_p to a z-face: dg_z[dgv_ind] = -1 is written
first and dg_z[sgv_ind] = 1 second, so on any overlap 1 wins. -/
def dgzVal (m : CasingMesh) (f : ℚ × ℚ) : ℚ :=
  if sgv_ind m f then 1 else if dgv_ind m f then -1 else 0

/-- The signed unit injections on the x-faces (dg_x), in grid order. -/
def dgxList (m : CasingMesh) : List ℚ := (gridFx m).map (dgxVal m)

/-- The signed unit injections on the z-faces (dg_z), in grid order. -/
def dgzList (m : CasingMesh) : List ℚ := (gridFz m).map (dgzVal m)

/-- The assembled signed unit injection vector dg = hstack([dg_x, dg_y, dg_z]);
the symmetric CylMesh has no y-faces, so dg_y is empty. -/
def dgList (m : CasingMesh) : List ℚ := dgxList m ++ dgzList m

/-- Sum over all faces of the signed unit injections (before the
division by face areas); the same for every frequency, since dg_p
reuses one dg vector for all frequencies. -/
def dgSum (m : CasingMesh) : ℚ := (dgxList m).sum + (dgzList m).sum

/-- Face areas of the x-faces divided by pi: an x-face at radius r
spanning a z-cell of height h has physical area 2 * pi * r * h.
Listed in the same Fortran order as gridFx. -/
def areaFxQ (m : CasingMesh) : List ℚ :=
  (hz m).flatMap (fun h => (nodesX m).map (fun r => 2 * r * h))

/-- Annulus areas divided by pi for one horizontal layer of z-faces:
the cell between radii s and s + w has area pi * ((s + w)^2 - s^2). -/
def ringAreasFrom (s : ℚ) : List ℚ → List ℚ
  | [] => []
  | w :: t => ((s + w) ^ 2 - s ^ 2) :: ringAreasFrom (s + w) t

/-- Face areas of the z-faces divided by pi, in the same Fortran order
as gridFz (one copy of the annulus areas per vertical node). -/
def areaFzQ (m : CasingMesh) : List ℚ :=
  (nodesZ m).flatMap (fun _ => ringAreasFrom 0 (hx m))

/-- The face areas divided by pi, mesh.area / pi, x-faces then z-faces:
the physical area of face j is pi * (areaQ m)[j]. -/
def areaQ (m : CasingMesh) : List ℚ := areaFxQ m ++ areaFzQ m

/-- The source vector handed to FDEM.Src.RawVec_e, scaled by pi so it
stays exact: dg / mesh.area has entries dg_j / (pi * areaQ_j), so
pi * (dg / mesh.area) has the rational entries dg_j / areaQ_j computed
here.  The same vector is used for every frequency. -/
def srcVecPi (m : CasingMesh) : List ℚ :=
  List.zipWith (fun v a => v / a) (dgList m) (areaQ m)

/-! ### Casing-current extractor (CasingCurrents) -/

/-- Pointwise update of a length-4 model vector, modelling a numpy
single-index assignment v[i] = x. -/
def updateQ (v : Fin 4 → ℚ) (i : Fin 4) (x : ℚ) : Fin 4 → ℚ :=
  fun j => if j = i then x else v j

/-- The casing indicator built from the four-category model vector:
casing_ind = sigma_m.copy(); casing_ind[[0, 1, 3]] = 0; casing_ind[2] = 1.
Entry 2 (the casing category of the model vector) becomes 1, all
other entries become 0. -/
def casing_ind (sigma_m : Fin 4 → ℚ) : Fin 4 → ℚ :=
  updateQ (updateQ (updateQ (updateQ sigma_m 0 0) 1 0) 3 0) 2 1

/-- The casingMap applied to a model vector: each (active) cell receives
the value of its material category. -/
def casingMapApply {γ : Type} (cat : γ → Fin 4) (v : Fin 4 → ℚ) : γ → ℚ :=
  fun c => v (cat c)

/-- Maps.InjectActiveCells with zero fill: active cells keep their
value, inactive cells are filled with 0. -/
def injectActive {γ : Type} (act : γ → Bool) (w : γ → ℚ) : γ → ℚ :=
  fun c => if act c then w c else 0

/-- The full-grid casing cell indicator
indCasing = actMap_Zeros * casingMap * casing_ind. -/
def indCasing {γ : Type} (act : γ → Bool) (cat : γ → Fin 4)
    (sigma_m : Fin 4 → ℚ) : γ → ℚ :=
  injectActive act (casingMapApply cat (casing_ind sigma_m))

/-- The zero-or-keep threshold applied to each averaged face indicator
value: casing_faces[casing_faces < 0.25] = 0 keeps a value exactly when
it is at least 1/4. -/
def faceThresh (v : ℚ) : ℚ := if v < 1 / 4 then 0 else v

/-- Complex face currents masked by the face indicator:
jACasing = sdiag(casing_faces) * jA, entrywise scaling of the
(re, im) pairs by the indicator. -/
def jACasing (cf : List ℚ) (jA : List (ℚ × ℚ)) : List (ℚ × ℚ) :=
  List.zipWith (fun c j => (c * j.1, c * j.2)) cf jA

/-- Sum over the radial index of a Fortran-ordered face vector: entry k
of the result is the sum of entries k * nx, ..., k * nx + nx - 1, the
per-depth net current of the reshape(nx, nz, order=F).sum(0) step. -/
def sumRadial (nx nz : ℕ) (v : List (ℚ × ℚ)) : List (ℚ × ℚ) :=
  (List.range nz).map (fun k =>
    ((((v.drop (k * nx)).take nx).map Prod.fst).sum,
      (((v.drop (k * nx)).take nx).map Prod.snd).sum))

/-- State of the two arrays touched while the indicator is built:
the input model vector sigma_m and the working array casing_ind. -/
structure IndState where
  sigma_m : Fin 4 → ℚ
  casing_ind : Fin 4 → ℚ

/-- The indicator-building prefix of CasingCurrents as a state
transformer: casing_ind = sigma_m.copy() allocates a fresh array, and
the fancy-index writes [[0, 1, 3]] = 0 and [2] = 1 mutate only it. -/
def buildCasingIndState (sigma_m : Fin 4 → ℚ) : IndState :=
  let s0 : IndState := ⟨sigma_m, sigma_m⟩
  let s1 : IndState :=
    { s0 with casing_ind := updateQ (updateQ (updateQ s0.casing_ind 0 0) 1 0) 3 0 }
  { s1 with casing_ind := updateQ s1.casing_ind 2 1 }

/-! ### Predicate written from the specification text, for comparison

The specification describes the downhole coupling faces as x-faces with
vertical coordinate within one minimum vertical cell width above the
source depth.  This is its direct formalisation; the source selection
dgh_ind2 is compared against it. -/

/-- Follows the words of the specification for the downhole coupling
selection: radial coordinate at or inside the casing inner radius, and
vertical coordinate at least the source depth and strictly within one
minimum vertical cell width above it. -/
def dgh_ind2Claimed (m : CasingMesh) (f : ℚ × ℚ) : Bool :=
  decide (f.1 ≤ m.cp.casing_a) &&
    (decide (m.cp.src_a_z ≤ f.2) && decide (f.2 < m.cp.src_a_z + hzMin m))

/-! ### Concrete configurations used for evaluation -/

/-- A small but valid parameter set: a 1 m casing of diameter 4 m and
wall thickness 1 m, source electrode at depth 1 m on the casing bottom,
return electrode at radius 6 m on the surface. -/
def cpSmall : CasingProperties :=
  { casing_top := 0, casing_l := 1, casing_d := 4, casing_t := 1,
    layer_z := (-3 / 4, -1 / 4), freqs := [1], muModels := [1],
    dsz := -1, src_b_x := 6, src_b_z := 0 }

/-- A small mesh over cpSmall: unit fine cells, coarse cells of width 2,
and one padding cell per side, giving an 8 by 13 cell cylinder grid. -/
def mSmall : CasingMesh :=
  { cp := cpSmall, csx1 := 1, csx2 := 2, pfx1 := 2, pfx2 := 2, dx2 := 5,
    npadx2 := 1, csz := 1, nza := 2, pfz := 2, npadzu := 1, npadzd := 1 }

/-- A valid parameter set whose coarse radial cell size csx2 = 1/2 is
below one metre, exercising the count-versus-length mixup in ncx2. -/
def cpNarrow : CasingProperties :=
  { casing_top := 0, casing_l := 1, casing_d := 2, casing_t := 1,
    layer_z := (-3 / 4, -1 / 4), freqs := [1], muModels := [1],
    dsz := -1 / 2, src_b_x := 6, src_b_z := 0 }

/-- Mesh over cpNarrow with csx1 = 1/10 and csx2 = 1/2: the radial
extent of the first three regions stops short of dx2 = 6. -/
def mNarrow : CasingMesh :=
  { cp := cpNarrow, csx1 := 1 / 10, csx2 := 1 / 2, pfx1 := 2, pfx2 := 2,
    dx2 := 6, npadx2 := 1, csz := 1, nza := 2, pfz := 2, npadzu := 1,
    npadzd := 1 }

/-- The default configuration with the casing top moved up to 1 m. -/
def mShifted : CasingMesh := { cp := { casing_top := 1 } }

/-- The default configuration with the casing top at the surface. -/
def mUnshifted : CasingMesh := { cp := { casing_top := 0 } }

/-- A sample four-category model vector holding the default
conductivities of the background, layer, casing and inside fluid. -/
def sigmaSample : Fin 4 → ℚ :=
  ![1 / 100000000, 1 / 100, 5500000, 1 / 100]

/-! ### Helper lemmas -/

theorem list_sum_map_mul (l : List ℚ) (c : ℚ) :
    (l.map (fun w => w * c)).sum = l.sum * c := by
  induction l with
  | nil => simp
  | cons a t ih => simp [ih, add_mul]

/-! ### C1: the vertical core cell count -/

/-- C1 (amended): the number of uniform core vertical cells satisfies
ncz = ceil((casing_l - casing_top) / csz) + 10.  It therefore depends on
casing_top as well, and reduces to the claimed ceil(casing_l / csz) + 10
exactly when casing_top = 0. -/
theorem ncz_eq_ceil_shifted (m : CasingMesh) :
    ncz m = ⌈(m.cp.casing_l - m.cp.casing_top) / m.csz⌉ + 10 := by
  have h : -(m.cp.casing_z.1) = m.cp.casing_l - m.cp.casing_top := by
    simp [CasingProperties.casing_z]
    ring
  unfold CasingMesh.ncz
  rw [h]

/-- C1 counterexample: the default grid with the casing top raised to
1 m has ncz = ceil(999 / csz) + 10, not ceil(casing_l / csz) + 10, and
differs from the grid with casing_top = 0 although casing_l and csz are
unchanged.  So ncz is not a function of casing_l and csz alone. -/
theorem ncz_casing_top_counterexample :
    ncz mShifted ≠ ⌈mShifted.cp.casing_l / mShifted.csz⌉ + 10 ∧
    ncz mShifted ≠ ncz mUnshifted ∧
    ncz mUnshifted = ⌈mUnshifted.cp.casing_l / mUnshifted.csz⌉ + 10 ∧
    mShifted.cp.casing_l = mUnshifted.cp.casing_l ∧
    mShifted.csz = mUnshifted.csz ∧
    mShifted.cp.casing_top ≠ mUnshifted.cp.casing_top := by
  set_option maxRecDepth 100000 in with_unfolding_all decide

/-! ### C8: the 0.25 face-indicator threshold -/

/-- C8 counterexample: a face whose averaged indicator value is exactly
1/4 is kept by the threshold (its value stays nonzero), so a face
contributes without its value strictly exceeding 1/4. -/
theorem faceThresh_boundary_counterexample :
    ¬ (faceThresh (1 / 4) ≠ 0 ↔ (1 / 4 : ℚ) < 1 / 4) := by
  with_unfolding_all decide

/-- C8 (amended): after thresholding, a face contributes exactly when
its averaged indicator value is at least 1/4 (the boundary value 1/4
included); on the averaged values 1/2, 1/5, 1/2, 1/10 exactly the two
faces with value 1/2 survive. -/
theorem faceThresh_amended :
    (∀ v : ℚ, faceThresh v ≠ 0 ↔ 1 / 4 ≤ v) ∧
    [(1 : ℚ) / 2, 1 / 5, 1 / 2, 1 / 10].map faceThresh
      = [1 / 2, 0, 1 / 2, 0] := by
  constructor
  · intro v
    unfold faceThresh
    split_ifs with h
    · simp only [ne_eq, not_true_eq_false, false_iff, not_le]
      exact h
    · have h4 : (1 : ℚ) / 4 ≤ v := le_of_not_lt h
      have hv : v ≠ 0 := ne_of_gt (lt_of_lt_of_le (by norm_num) h4)
      simp only [ne_eq, hv, not_false_eq_true, true_iff]
      exact h4
  · with_unfolding_all decide

/-! ### C2: the sum of the signed unit injections -/

theorem sum_map_two_sel {α : Type} (p q : α → Bool) (x y : ℚ) (l : List α) :
    (l.map (fun f => if p f then x else if q f then y else 0)).sum
      = x * (l.countP p : ℚ) + y * (l.countP (fun f => q f && !p f) : ℚ) := by
  induction l with
  | nil => simp
  | cons a t ih =>
    by_cases hp : p a
    · simp [List.countP_cons, hp, ih]
      ring
    · by_cases hq : q a
      · simp [List.countP_cons, hp, hq, ih]
        ring
      · simp [List.countP_cons, hp, hq, ih]

/-- C2 (amended): the sum over all faces of the signed unit injections
equals the number of +1 faces (downhole couplings not overwritten by the
surface wire, plus return-electrode faces) minus the number of -1 faces
(surface-wire faces, plus borehole faces not overwritten by the return
electrode).  These counts need not cancel, so the sum is not an
invariant zero; on the valid configuration mSmall it is -6. -/
theorem dgSum_eq_count_difference (m : CasingMesh) :
    dgSum m
      = (((gridFx m).countP (fun f => dgh_ind2 m f && !sgh_ind m f) : ℚ)
          + ((gridFz m).countP (sgv_ind m) : ℚ))
        - (((gridFx m).countP (sgh_ind m) : ℚ)
          + ((gridFz m).countP (fun f => dgv_ind m f && !sgv_ind m f) : ℚ)) := by
  unfold dgSum dgxList dgzList dgxVal dgzVal
  rw [sum_map_two_sel (sgh_ind m) (dgh_ind2 m) (-1) 1,
      sum_map_two_sel (sgv_ind m) (dgv_ind m) 1 (-1)]
  ring

/-- C2 counterexample: mSmall is a valid configuration (positive casing
length, casing thinner than its diameter, ordered layer bounds, one
positive frequency and permeability), yet the sum of the signed unit
injections of its source assembly is -6, not 0: the four selections pick
1, 6, 4 and 3 faces, and 1 - 6 - 4 + 3 does not vanish. -/
theorem dgSum_counterexample :
    dgSum mSmall = -6 ∧ dgSum mSmall ≠ 0 ∧
    mSmall.cp.casing_t < mSmall.cp.casing_d ∧ 0 < mSmall.cp.casing_l ∧
    mSmall.cp.layer_z.1 < mSmall.cp.layer_z.2 ∧
    mSmall.cp.freqs ≠ [] ∧ (∀ q ∈ mSmall.cp.freqs, 0 < q) ∧
    mSmall.cp.muModels ≠ [] ∧ (∀ q ∈ mSmall.cp.muModels, 0 < q) := by
  set_option maxRecDepth 400000 in with_unfolding_all decide

/-! ### C6: the downhole coupling selection -/

/-- C6 (amended): the downhole coupling selection consists exactly of
the x-faces whose radial coordinate is at or inside the casing inner
radius and whose vertical coordinate is at most the source depth and
strictly within one minimum vertical cell width below it. -/
theorem dgh_ind2_characterisation (m : CasingMesh) (f : ℚ × ℚ) :
    dgh_ind2 m f = true ↔
      f.1 ≤ m.cp.casing_a ∧ m.cp.src_a_z - hzMin m < f.2 ∧
        f.2 ≤ m.cp.src_a_z := by
  unfold dgh_ind2
  simp only [Bool.and_eq_true, decide_eq_true_eq]
  tauto

/-- C6 counterexample: on the small mesh, the x-face at radius 1 and
height -3/2 lies strictly below the source depth -1, yet the code
selects it; the claimed selection (within one minimum vertical cell
width above the source depth) excludes it. -/
theorem dgh_ind2_counterexample :
    (1, -3 / 2) ∈ gridFx mSmall ∧
    dgh_ind2 mSmall (1, -3 / 2) = true ∧
    dgh_ind2Claimed mSmall (1, -3 / 2) = false ∧
    (-3 / 2 : ℚ) < cpSmall.src_a_z := by
  set_option maxRecDepth 400000 in with_unfolding_all decide

/-! ### C3 and C4: the radial rescaling step and the coarse region -/

theorem rescaled_regions_sum (m : CasingMesh) (hb : (hx1bRaw m).sum ≠ 0) :
    (hx1a m).sum + (hx1b m).sum = (dx1 m : ℚ) * m.csx2 := by
  unfold hx1b
  rw [list_sum_map_mul]
  field_simp

/-- C4: after the rescaling step, the sum of the widths of radial
regions 1 and 2 equals the pre-rescaling sum rounded down to the
nearest multiple of csx2, hence is an exact integer multiple of csx2
(exact rational arithmetic, so no floating tolerance is needed). -/
theorem rescaling_invariant (m : CasingMesh) (_hc : 0 < m.csx2)
    (hb : (hx1bRaw m).sum ≠ 0) :
    (hx1a m).sum + (hx1b m).sum
      = (⌊((hx1a m).sum + (hx1bRaw m).sum) / m.csx2⌋ : ℚ) * m.csx2 := by
  have h := rescaled_regions_sum m hb
  unfold dx1 at h
  exact h

/-- C4 witness: on the small mesh, regions 1 and 2 sum to 7 before the
rescaling and to floor(7 / 2) * 2 = 6 afterwards. -/
theorem rescaling_invariant_witness :
    (hx1a mSmall).sum + (hx1b mSmall).sum
      = (⌊((hx1a mSmall).sum + (hx1bRaw mSmall).sum) / mSmall.csx2⌋ : ℚ)
          * mSmall.csx2 :=
  rescaling_invariant mSmall (by with_unfolding_all decide)
    (by with_unfolding_all decide)

/-- C3 (amended): whenever the coarse radial cell size csx2 is at least
one length unit (as in the default csx2 = 25; the code reuses the count
dx1 as a length, which is only harmless then) and the fine cell size and
padding factor are nonnegative, the cumulative radial extent of regions
1 to 3 (fine uniform, rescaled padding, coarse uniform) reaches dx2. -/
theorem coarse_region_reaches_dx2 (m : CasingMesh) (h1 : 0 ≤ m.csx1)
    (hp : 0 ≤ m.pfx1) (hc : 1 ≤ m.csx2) :
    m.dx2 ≤ (hx1a m).sum + (hx1b m).sum + (hx2a m).sum := by
  have hc0 : (0 : ℚ) < m.csx2 := lt_of_lt_of_le one_pos hc
  have ha : 0 ≤ (hx1a m).sum := by
    unfold hx1a meshTensorUnif
    rw [List.sum_replicate, nsmul_eq_mul]
    positivity
  have hb0 : 0 ≤ (hx1bRaw m).sum := by
    apply List.sum_nonneg
    intro x hx
    unfold hx1bRaw meshTensorPadUp at hx
    simp only [List.mem_map, List.mem_range] at hx
    obtain ⟨i, _, rfl⟩ := hx
    positivity
  have hd0 : (0 : ℤ) ≤ dx1 m := by
    unfold dx1
    apply Int.floor_nonneg.mpr
    positivity
  have hd0Q : (0 : ℚ) ≤ (dx1 m : ℚ) := by exact_mod_cast hd0
  have hS : (dx1 m : ℚ) ≤ (hx1a m).sum + (hx1b m).sum := by
    by_cases hb : (hx1bRaw m).sum = 0
    · have hz : (hx1b m).sum = 0 := by
        unfold hx1b
        rw [list_sum_map_mul, hb, zero_mul]
      rw [hz, add_zero]
      calc (dx1 m : ℚ)
          ≤ ((hx1a m).sum + (hx1bRaw m).sum) / m.csx2 := Int.floor_le _
        _ = (hx1a m).sum / m.csx2 := by rw [hb, add_zero]
        _ ≤ (hx1a m).sum := by
            rw [div_le_iff₀ hc0]
            nlinarith
    · rw [rescaled_regions_sum m hb]
      nlinarith
  have h2a : (hx2a m).sum = ((ncx2 m).toNat : ℚ) * m.csx2 := by
    unfold hx2a meshTensorUnif
    rw [List.sum_replicate, nsmul_eq_mul]
  by_cases hn : ncx2 m ≤ 0
  · have hx : (m.dx2 - (dx1 m : ℚ)) / m.csx2 ≤ ((0 : ℤ) : ℚ) := by
      apply Int.ceil_le.mp
      unfold ncx2 at hn
      exact_mod_cast hn
    have hq : (m.dx2 - (dx1 m : ℚ)) / m.csx2 * m.csx2 ≤ 0 :=
      mul_nonpos_iff.mpr (Or.inr ⟨by exact_mod_cast hx, hc0.le⟩)
    rw [div_mul_cancel₀ _ (ne_of_gt hc0)] at hq
    have h2a0 : 0 ≤ (hx2a m).sum := by
      rw [h2a]
      positivity
    linarith
  · push_neg at hn
    have htn : ((ncx2 m).toNat : ℚ) = ((ncx2 m : ℤ) : ℚ) := by
      exact_mod_cast Int.toNat_of_nonneg hn.le
    have hceil : (m.dx2 - (dx1 m : ℚ)) / m.csx2 ≤ ((ncx2 m : ℤ) : ℚ) := by
      unfold ncx2
      exact Int.le_ceil _
    rw [div_le_iff₀ hc0] at hceil
    rw [h2a, htn]
    linarith

/-- C3 witness: on the small mesh (csx2 = 2, dx2 = 5) the radial extent
of regions 1 to 3 is 6 + 2 = 8, which reaches dx2 = 5. -/
theorem coarse_region_reaches_dx2_witness :
    mSmall.dx2 ≤ (hx1a mSmall).sum + (hx1b mSmall).sum + (hx2a mSmall).sum :=
  coarse_region_reaches_dx2 mSmall (by with_unfolding_all decide)
    (by with_unfolding_all decide) (by with_unfolding_all decide)

/-- C3 counterexample: for the valid configuration mNarrow, whose
coarse cell size csx2 = 1/2 is below one, the extent of regions 1 to 3
is 4, short of dx2 = 6: ncx2 = ceil((dx2 - dx1) / csx2) subtracts the
count dx1 = 4 instead of the length dx1 * csx2 = 2, so too few coarse
cells are produced when csx2 < 1. -/
theorem coarse_region_counterexample :
    ¬ (mNarrow.dx2
        ≤ (hx1a mNarrow).sum + (hx1b mNarrow).sum + (hx2a mNarrow).sum) ∧
    0 < mNarrow.csx1 ∧ 0 < mNarrow.csx2 ∧ 1 < mNarrow.pfx1 ∧
    mNarrow.csx1 < mNarrow.csx2 ∧
    (hx1a mNarrow).sum + (hx1b mNarrow).sum + (hx2a mNarrow).sum = 4 ∧
    mNarrow.dx2 = 6 := by
  set_option maxRecDepth 100000 in with_unfolding_all decide

/-! ### C5: signs and area normalisation of the assembled source -/

theorem cumsumFrom_length (s : ℚ) (l : List ℚ) :
    (cumsumFrom s l).length = l.length := by
  induction l generalizing s with
  | nil => rfl
  | cons a t ih => simp [cumsumFrom, ih]

theorem centersFrom_length (s : ℚ) (l : List ℚ) :
    (centersFrom s l).length = l.length := by
  induction l generalizing s with
  | nil => rfl
  | cons a t ih => simp [centersFrom, ih]

theorem ringAreasFrom_length (s : ℚ) (l : List ℚ) :
    (ringAreasFrom s l).length = l.length := by
  induction l generalizing s with
  | nil => rfl
  | cons a t ih => simp [ringAreasFrom, ih]

theorem length_flatMap_const {α β : Type} (l : List α) (g : α → List β)
    (n : ℕ) (h : ∀ a, (g a).length = n) :
    (l.flatMap g).length = l.length * n := by
  induction l with
  | nil => simp
  | cons a t ih =>
    simp only [List.flatMap_cons, List.length_append, ih, h, List.length_cons]
    ring

theorem dgList_areaQ_length (m : CasingMesh) :
    (dgList m).length = (areaQ m).length := by
  unfold dgList dgxList dgzList areaQ gridFx gridFz areaFxQ areaFzQ
  rw [List.length_append, List.length_append, List.length_map,
    List.length_map,
    length_flatMap_const _ _ (nodesX m).length (fun z => List.length_map _ _),
    length_flatMap_const _ _ (ccX m).length (fun z => List.length_map _ _),
    length_flatMap_const _ _ (nodesX m).length (fun w => List.length_map _ _),
    length_flatMap_const _ _ (ringAreasFrom 0 (hx m)).length (fun z => rfl)]
  have h1 : (ccZ m).length = (CasingMesh.hz m).length := by
    unfold CasingMesh.ccZ centers
    rw [List.length_map, centersFrom_length]
  have h2 : (ccX m).length = (ringAreasFrom 0 (hx m)).length := by
    unfold CasingMesh.ccX centers
    rw [centersFrom_length, ringAreasFrom_length]
  rw [h1, h2]

theorem getD_zipWith_div (l1 l2 : List ℚ) (hlen : l1.length = l2.length)
    (j : ℕ) :
    (List.zipWith (fun v a => v / a) l1 l2).getD j 0
      = l1.getD j 0 / l2.getD j 0 := by
  induction l1 generalizing l2 j with
  | nil =>
    have h2 : l2 = [] := List.length_eq_zero.mp hlen.symm
    subst h2
    simp
  | cons a t ih =>
    cases l2 with
    | nil => simp at hlen
    | cons b u =>
      cases j with
      | zero => simp
      | succ k =>
        simp only [List.zipWith_cons_cons, List.getD_cons_succ]
        exact ih u (by simpa using hlen) k

/-- C5: under the geometric sanity conditions that the source depth lies
below one minimum vertical cell width and the finest radial cell is
inside ninety percent of the return radius (so the four selections
cannot collide), the assembler writes -1 on the borehole vertical-wire
z-faces, +1 on the downhole coupling x-faces, -1 on the near-surface
horizontal x-faces and +1 on the return-electrode z-faces, and every
entry of the assembled vector is the signed injection divided by the
physical face area pi * areaQ. -/
theorem source_assembly (m : CasingMesh)
    (hdepth : m.cp.src_a_z ≤ hzMin m)
    (hret : hxMin m ≤ m.cp.src_b_x * (9 / 10)) :
    (∀ f, dgv_ind m f = true → dgzVal m f = -1) ∧
    (∀ f, dgh_ind2 m f = true → dgxVal m f = 1) ∧
    (∀ f, sgh_ind m f = true → dgxVal m f = -1) ∧
    (∀ f, sgv_ind m f = true → dgzVal m f = 1) ∧
    (∀ j : ℕ, ((srcVecPi m).getD j 0 : ℝ) / Real.pi
        = ((dgList m).getD j 0 : ℝ)
          / (Real.pi * ((areaQ m).getD j 0 : ℝ))) := by
  refine ⟨?_, ?_, ?_, ?_, ?_⟩
  · intro f hf
    have hf1 : f.1 < hxMin m := by
      unfold dgv_ind at hf
      simp only [Bool.and_eq_true, decide_eq_true_eq] at hf
      exact hf.1
    have hsgv : ¬ (sgv_ind m f = true) := by
      unfold sgv_ind
      simp only [Bool.and_eq_true, decide_eq_true_eq]
      rintro ⟨⟨h9, _⟩, _⟩
      linarith
    unfold dgzVal
    rw [if_neg hsgv, if_pos hf]
  · intro f hf
    have hf2 : f.2 ≤ m.cp.src_a_z := by
      unfold dgh_ind2 at hf
      simp only [Bool.and_eq_true, decide_eq_true_eq] at hf
      exact hf.2.1
    have hsgh : ¬ (sgh_ind m f = true) := by
      unfold sgh_ind
      simp only [Bool.and_eq_true, decide_eq_true_eq]
      rintro ⟨_, hmin, _⟩
      linarith
    unfold dgxVal
    rw [if_neg hsgh, if_pos hf]
  · intro f hf
    unfold dgxVal
    rw [if_pos hf]
  · intro f hf
    unfold dgzVal
    rw [if_pos hf]
  · intro j
    unfold srcVecPi
    rw [getD_zipWith_div (dgList m) (areaQ m) (dgList_areaQ_length m) j,
      Rat.cast_div, div_div,
      mul_comm (((areaQ m).getD j 0 : ℚ) : ℝ) Real.pi]

/-- C5 witness: on the small mesh the z-face at radius 1/2 and height 0
lies on the borehole wire and is assigned the value -1. -/
theorem source_assembly_witness : dgzVal mSmall (1 / 2, 0) = -1 :=
  (source_assembly mSmall
    (by set_option maxRecDepth 400000 in with_unfolding_all decide)
    (by set_option maxRecDepth 400000 in with_unfolding_all decide)).1
    (1 / 2, 0)
    (by set_option maxRecDepth 400000 in with_unfolding_all decide)

/-! ### C7: the casing cell indicator -/

theorem casing_ind_apply (sigma_m : Fin 4 → ℚ) (i : Fin 4) :
    casing_ind sigma_m i = if i = 2 then 1 else 0 := by
  fin_cases i <;> simp [casing_ind, updateQ, Fin.ext_iff]

/-- C7 (amended): the composite indicator built by CasingCurrents is 1
exactly on (active) cells whose material category is the one marked by
index 2 of the model vector, which the code identifies as the casing
category; cells of every other category get 0.  The parenthetical
ordering of the original statement, which places casing at index 3, does
not match the code. -/
theorem indCasing_characterisation {γ : Type} (sigma_m : Fin 4 → ℚ)
    (act : γ → Bool) (cat : γ → Fin 4) (c : γ) (hc : act c = true) :
    (indCasing act cat sigma_m c = 1 ↔ cat c = 2) ∧
    (cat c ≠ 2 → indCasing act cat sigma_m c = 0) := by
  have h : indCasing act cat sigma_m c = if cat c = 2 then 1 else 0 := by
    unfold indCasing injectActive casingMapApply
    rw [hc]
    simp only [if_true]
    exact casing_ind_apply sigma_m (cat c)
  rw [h]
  by_cases h2 : cat c = 2
  · simp [h2]
  · simp [h2]

/-- C7 witness: a cell of category 2 with a nontrivial activity map
receives indicator value 1. -/
theorem indCasing_characterisation_witness :
    indCasing (fun c : Fin 4 => decide (c.val < 3)) (fun c => c)
      sigmaSample 2 = 1 :=
  (indCasing_characterisation sigmaSample (fun c : Fin 4 => decide (c.val < 3))
    (fun c => c) 2 (by decide)).1.mpr rfl

/-- C7 counterexample: under the ordering stated in the original
sentence (air, background, layer, casing at indices 0 to 3) a casing
cell has category 3; the indicator built by the code gives such a cell
the value 0, and gives value 1 to a category-2 cell instead.  The code
comments identify index 2, not 3, as the casing entry. -/
theorem indCasing_index_counterexample :
    casing_ind sigmaSample 3 = 0 ∧ casing_ind sigmaSample 2 = 1 ∧
    indCasing (fun _ : Fin 4 => true) (fun c => c) sigmaSample 3 = 0 ∧
    indCasing (fun _ : Fin 4 => true) (fun c => c) sigmaSample 2 = 1 ∧
    (3 : Fin 4) ≠ 2 := by
  with_unfolding_all decide

/-! ### C9: behaviour on an empty face selection -/

theorem jACasing_all_zero (cf : List ℚ) (jA : List (ℚ × ℚ))
    (h : ∀ x ∈ cf, x = 0) : ∀ y ∈ jACasing cf jA, y = (0, 0) := by
  induction cf generalizing jA with
  | nil => simp [jACasing]
  | cons a t ih =>
    cases jA with
    | nil => simp [jACasing]
    | cons b u =>
      intro y hy
      simp only [jACasing, List.zipWith_cons_cons, List.mem_cons] at hy
      rcases hy with hy | hy
      · have ha : a = 0 := h a (by simp)
        rw [hy, ha]
        simp
      · exact ih u (fun x hx => h x (by simp [hx])) y hy

/-- C9 (amended): when the face indicator (or a face selection) selects
no faces, all its entries being zero, the extractor does not raise any
error: the masked face currents and the per-depth current profile are
simply returned as all-zero values.  The code contains no
empty-selection check at all. -/
theorem empty_selection_returns_zero (cf : List ℚ) (jA : List (ℚ × ℚ))
    (nx nz : ℕ) (h : ∀ x ∈ cf, x = 0) :
    (∀ y ∈ jACasing cf jA, y = (0, 0)) ∧
    (∀ y ∈ sumRadial nx nz (jACasing cf jA), y = (0, 0)) := by
  have hz := jACasing_all_zero cf jA h
  refine ⟨hz, ?_⟩
  intro y hy
  simp only [sumRadial, List.mem_map, List.mem_range] at hy
  obtain ⟨k, _, rfl⟩ := hy
  have hfst : ∀ x ∈ (((jACasing cf jA).drop (k * nx)).take nx).map Prod.fst,
      x = 0 := by
    intro x hx
    simp only [List.mem_map] at hx
    obtain ⟨y, hy, rfl⟩ := hx
    have := hz y (List.mem_of_mem_drop (List.mem_of_mem_take hy))
    rw [this]
  have hsnd : ∀ x ∈ (((jACasing cf jA).drop (k * nx)).take nx).map Prod.snd,
      x = 0 := by
    intro x hx
    simp only [List.mem_map] at hx
    obtain ⟨y, hy, rfl⟩ := hx
    have := hz y (List.mem_of_mem_drop (List.mem_of_mem_take hy))
    rw [this]
  rw [Prod.ext_iff]
  exact ⟨List.sum_eq_zero hfst, List.sum_eq_zero hsnd⟩

/-- C9 witness: an all-zero two-entry indicator applied to two face
currents yields the all-zero profile, returned as a value. -/
theorem empty_selection_returns_zero_witness :
    (sumRadial 1 2 (jACasing [0, 0] [(3, 4), (5, 6)])).headI = (0, 0) :=
  (empty_selection_returns_zero [0, 0] [(3, 4), (5, 6)] 1 2 (by decide)).2
    (sumRadial 1 2 (jACasing [0, 0] [(3, 4), (5, 6)])).headI
    (by with_unfolding_all decide)

/-- C9 counterexample: on a concrete empty selection (all indicator
entries zero) the masked currents and the extracted profile are the
plain zero vectors, produced without failure, so no empty-selection
error is raised. -/
theorem empty_selection_counterexample :
    jACasing [0, 0, 0, 0] [(5, 1), (7, 0), (9, 2), (11, 3)]
        = [(0, 0), (0, 0), (0, 0), (0, 0)] ∧
    sumRadial 2 2 (jACasing [0, 0, 0, 0] [(5, 1), (7, 0), (9, 2), (11, 3)])
        = [(0, 0), (0, 0)] := by
  with_unfolding_all decide

/-! ### C10: the extractor leaves sigma_m unchanged -/

/-- C10: the indicator-building step of CasingCurrents works on a copy
of sigma_m, so the sigma_m array is unchanged by the call while the
working array ends up holding the casing indicator. -/
theorem buildCasingIndState_preserves_sigma_m (sigma_m : Fin 4 → ℚ) :
    (buildCasingIndState sigma_m).sigma_m = sigma_m ∧
    (buildCasingIndState sigma_m).casing_ind = casing_ind sigma_m :=
  ⟨rfl, rfl⟩

end CasingSim
